import Mathlib

/-!
Verification development for the UDF-to-PDF converter
(`backend/udf_converter.py`): a shallow embedding of its data model and
algorithms, with theorems settling the specified properties.

Text is modelled as `List Char` (Python `str` slicing and `len` are
per-character).  Python floats appearing in attribute parsing are modelled
as `ℚ`; a `float(...)`/`int(...)` call on an unparsable attribute string is
modelled as an `Except` error.
-/

namespace UDF

/-- Configuration constants from the source module. -/
def MAX_TEXT_CHUNK_LENGTH : Nat := 1000

def MAX_PARAGRAPHS_PER_CELL : Nat := 3

def MAX_IMAGE_PIXELS : Nat := 89478485

def MAX_IMAGE_WIDTH : Nat := 10000

def MAX_IMAGE_HEIGHT : Nat := 10000

def MAX_INLINE_IMAGE_WIDTH : ℚ := 450

def MAX_INLINE_IMAGE_HEIGHT : ℚ := 600

def MIN_FONT_SIZE : ℚ := 8

def MAX_FONT_SIZE : ℚ := 72

def DEFAULT_MARGIN_PTS : ℚ := 85 / 2

/-- `format_text_styles`: apply HTML style tags to a text according to the
bold/italic/underline flags, mirroring the `if/elif` chain of the source. -/
def format_text_styles (text : List Char) (bold italic underline : Bool) :
    List Char :=
  if bold && italic && underline then
    "<u><b><i>".data ++ text ++ "</i></b></u>".data
  else if bold && italic then "<b><i>".data ++ text ++ "</i></b>".data
  else if bold && underline then "<u><b>".data ++ text ++ "</b></u>".data
  else if italic && underline then "<u><i>".data ++ text ++ "</i></u>".data
  else if bold then "<b>".data ++ text ++ "</b>".data
  else if italic then "<i>".data ++ text ++ "</i>".data
  else if underline then "<u>".data ++ text ++ "</u>".data
  else text

/-- Wrap a text in one HTML tag pair: `<t>…</t>`. -/
def wrapTag (tag : String) (text : List Char) : List Char :=
  ('<' :: tag.data ++ ['>']) ++ text ++ ('<' :: '/' :: tag.data ++ ['>'])

/-- Conditionally wrap: used to express the nesting order of the style tags. -/
def wrapIf (flag : Bool) (tag : String) (text : List Char) : List Char :=
  if flag then wrapTag tag text else text

/-- Python string slicing `s[start:start+length]` for `0 ≤ start` and
`0 ≤ length`: drop `start` characters, then take at most `length`. -/
def pySlice (s : List Char) (start length : Nat) : List Char :=
  (s.drop start).take length

/-- `ParagraphHandler._process_text_node`: slice the shared content buffer at
`(startOffset, length)` and apply the run's style flags. -/
def process_text_node (buffer : List Char) (startOffset length : Nat)
    (bold italic underline : Bool) : List Char :=
  format_text_styles (pySlice buffer startOffset length) bold italic underline

/-- `ParagraphHandler._process_field_node`: a field renders its `fieldName`
unless a `startOffset` attribute is present, in which case it slices the
shared buffer exactly like a text run. -/
def process_field_node (buffer : List Char) (fieldName : List Char)
    (span : Option (Nat × Nat)) (bold italic underline : Bool) : List Char :=
  match span with
  | none => format_text_styles fieldName bold italic underline
  | some (startOffset, length) =>
      format_text_styles (pySlice buffer startOffset length) bold italic underline

/-- `validate_image_safety`: reject an image from its decoded dimensions when
the total pixel count exceeds the ceiling or either dimension exceeds the
fixed bound; otherwise accept and return the dimensions. -/
def validate_image_safety (w h : Nat) : Option (Nat × Nat) :=
  if w * h > MAX_IMAGE_PIXELS then none
  else if w > MAX_IMAGE_WIDTH ∨ h > MAX_IMAGE_HEIGHT then none
  else some (w, h)

/-- A ReportLab inline image flowable: its draw dimensions in points. -/
structure InlineImage where
  drawWidth : ℚ
  drawHeight : ℚ
deriving DecidableEq

/-- The resize step of `ParagraphHandler._process_inline_image`: scale down,
preserving aspect ratio, when the draw size exceeds the inline maxima. -/
def resize_inline_image (w h : ℚ) : ℚ × ℚ :=
  if w > MAX_INLINE_IMAGE_WIDTH ∨ h > MAX_INLINE_IMAGE_HEIGHT then
    let ratio := min (MAX_INLINE_IMAGE_WIDTH / w) (MAX_INLINE_IMAGE_HEIGHT / h)
    (w * ratio, h * ratio)
  else (w, h)

/-- `ParagraphHandler._process_inline_image`.  The `imageData` payload is
modelled by what the attribute/base64/PIL stage yields: `none` when the
attribute is missing or empty, `some none` when decoding raises (caught),
and `some (some (w, h))` for a successful decode with those dimensions. -/
def process_inline_image (imageData : Option (Option (Nat × Nat))) :
    Option InlineImage :=
  match imageData with
  | none => none
  | some none => none
  | some (some (w, h)) =>
      match validate_image_safety w h with
      | none => none
      | some _ =>
          let p := resize_inline_image (w : ℚ) (h : ℚ)
          some ⟨p.1, p.2⟩

/-- ReportLab paragraph alignment. -/
inductive Alignment where
  | left
  | center
  | right
  | justify
deriving DecidableEq

/-- `get_alignment_style`: convert the UDF alignment code. -/
def get_alignment_style (alignment_value : String) : Alignment :=
  if alignment_value = "1" then .center
  else if alignment_value = "3" then .justify
  else if alignment_value = "2" then .right
  else .left

/-- A numeric XML attribute as seen by Python's `float(elem.get(k, d))`:
absent (the default string is used), present and parsable, or present but
unparsable (in which case `float` raises `ValueError`). -/
inductive FloatAttr where
  | absent
  | num (value : ℚ)
  | junk
deriving DecidableEq

/-- `float(elem.get(key, str(default)))`: the default when absent, the value
when parsable, an exception (modelled as `Except.error`) when unparsable. -/
def floatOfAttr (a : FloatAttr) (default : ℚ) : Except Unit ℚ :=
  match a with
  | .absent => .ok default
  | .num v => .ok v
  | .junk => .error ()

/-- The semantic fields of a ReportLab `ParagraphStyle` used by the
converter (the generated unique style name is not semantic; `textGray`
records the gray-text marking used for unknown-element placeholders). -/
structure ParaStyle where
  alignment : Alignment
  leftIndent : ℚ
  rightIndent : ℚ
  firstLineIndent : ℚ
  fontSize : ℚ
  leading : ℚ
  textGray : Bool
deriving DecidableEq

/-- A child node of a `<paragraph>` element, by tag. -/
inductive RunNode where
  | content (startOffset length : Nat) (bold italic underline : Bool)
  | field (fieldName : List Char) (span : Option (Nat × Nat))
      (bold italic underline : Bool)
  | space
  | image (imageData : Option (Option (Nat × Nat)))
  | other (tag : String)
deriving DecidableEq

/-- A `<paragraph>` element: its style attributes and its child runs. -/
structure ParaElem where
  alignment : Option String
  lineSpacing : FloatAttr
  size : FloatAttr
  leftIndent : FloatAttr
  rightIndent : FloatAttr
  firstLineIndent : FloatAttr
  runs : List RunNode
deriving DecidableEq

/-- A flowable producible by `ParagraphHandler.handle`: a styled text
paragraph or an inline image. -/
inductive PFlow where
  | para (text : List Char) (style : ParaStyle)
  | image (img : InlineImage)
deriving DecidableEq

/-- The style-construction prefix of `ParagraphHandler.handle`: alignment,
line-spacing (clamped below 0.1 to 1.0), font size (clamped to
[8pt, 72pt]), indents; an unparsable numeric attribute raises. -/
def buildParaStyle (base : ParaStyle) (p : ParaElem) : Except Unit ParaStyle := do
  let align := get_alignment_style (p.alignment.getD "0")
  let ls ← floatOfAttr p.lineSpacing (6 / 5)
  let ls := if ls < 1 / 10 then 1 else ls
  let size ← floatOfAttr p.size 12
  let size := max MIN_FONT_SIZE (min size MAX_FONT_SIZE)
  let li ← floatOfAttr p.leftIndent 0
  let ri ← floatOfAttr p.rightIndent 0
  let fli ← floatOfAttr p.firstLineIndent 0
  .ok { base with
        alignment := align, leftIndent := li, rightIndent := ri,
        firstLineIndent := fli, fontSize := size, leading := size * max 1 ls }

/-- Loop state of `ParagraphHandler.handle`: the flushed text paragraphs,
the collected inline images, and the text accumulated so far. -/
structure ParaAcc where
  paragraphs : List PFlow
  images : List PFlow
  current : List Char
deriving DecidableEq

/-- The chunk-cap step at the end of each loop iteration: if appending the
chunk would push the accumulated text over `MAX_TEXT_CHUNK_LENGTH`, flush
the accumulated text as a paragraph and restart from the chunk; otherwise
append. -/
def capAppendText (style : ParaStyle) (paragraphs : List PFlow)
    (current chunk : List Char) : List PFlow × List Char :=
  if current.length + chunk.length > MAX_TEXT_CHUNK_LENGTH then
    (paragraphs ++ [.para current style], chunk)
  else (paragraphs, current ++ chunk)

/-- One iteration of the child loop of `ParagraphHandler.handle`. -/
def paraStep (buffer : List Char) (style : ParaStyle) (acc : ParaAcc)
    (child : RunNode) : ParaAcc :=
  match child with
  | .content s l b i u =>
      let r := capAppendText style acc.paragraphs acc.current
        (process_text_node buffer s l b i u)
      ⟨r.1, acc.images, r.2⟩
  | .field name sp b i u =>
      let r := capAppendText style acc.paragraphs acc.current
        (process_field_node buffer name sp b i u)
      ⟨r.1, acc.images, r.2⟩
  | .space =>
      let r := capAppendText style acc.paragraphs acc.current [' ']
      ⟨r.1, acc.images, r.2⟩
  | .other _ =>
      let r := capAppendText style acc.paragraphs acc.current []
      ⟨r.1, acc.images, r.2⟩
  | .image payload =>
      match process_inline_image payload with
      | some img =>
          let flushed : List PFlow × List Char :=
            if acc.current ≠ [] then
              (acc.paragraphs ++ [.para acc.current style], [])
            else (acc.paragraphs, acc.current)
          let r := capAppendText style flushed.1 flushed.2 []
          ⟨r.1, acc.images ++ [.image img], r.2⟩
      | none =>
          let r := capAppendText style acc.paragraphs acc.current "[GÖRSEL]".data
          ⟨r.1, acc.images, r.2⟩

/-- The child loop of `ParagraphHandler.handle` over all runs. -/
def paraLoop (buffer : List Char) (style : ParaStyle) (runs : List RunNode) :
    ParaAcc :=
  runs.foldl (paraStep buffer style) ⟨[], [], []⟩

/-- `ParagraphHandler.handle`: build the style, run the child loop, flush a
trailing nonempty accumulation, and return text paragraphs followed by
inline images. -/
def ParagraphHandler.handle (buffer : List Char) (base : ParaStyle)
    (p : ParaElem) : Except Unit (List PFlow) := do
  let style ← buildParaStyle base p
  let acc := paraLoop buffer style p.runs
  let paragraphs :=
    if acc.current ≠ [] then acc.paragraphs ++ [.para acc.current style]
    else acc.paragraphs
  .ok (paragraphs ++ acc.images)

/-- An integer XML attribute as seen by Python's `int(elem.get(k, d))`. -/
inductive IntAttr where
  | absent
  | num (value : Int)
  | junk
deriving DecidableEq

/-- `int(elem.get(key, str(default)))`. -/
def intOfAttr (a : IntAttr) (default : Int) : Except Unit Int :=
  match a with
  | .absent => .ok default
  | .num v => .ok v
  | .junk => .error ()

/-- Table border style selected by the `border` attribute. -/
inductive BorderStyle where
  | grid
  | box
  | plain
deriving DecidableEq

/-- The border attribute logic: default `borderCell`; `borderCell`/`border`
give a full grid, `borderOuter` an outer box, anything else no borders. -/
def borderOf (border : Option String) : BorderStyle :=
  let b := border.getD "borderCell"
  if b = "borderCell" ∨ b = "border" then .grid
  else if b = "borderOuter" then .box
  else .plain

/-- A `<table>` element: rows of cells of paragraphs, plus its attributes.
`columnSpans` is the comma-split of the attribute string, each item as a
parse outcome (`''.split(',')` yields one unparsable empty item when the
attribute is absent). -/
structure TableElem where
  rows : List (List (List ParaElem))
  columnCount : IntAttr
  columnSpans : List FloatAttr
  border : Option String

/-- Resolve one `<cell>`: concatenate the paragraph handler's output over
the cell's paragraphs; an empty result is replaced by one empty-text
placeholder paragraph on the base style. -/
def resolveCell (buffer : List Char) (base : ParaStyle)
    (cell : List ParaElem) : Except Unit (List PFlow) := do
  let content ← cell.foldlM (fun acc p => do
      let f ← ParagraphHandler.handle buffer base p
      pure (acc ++ f)) []
  .ok (if content.isEmpty then [.para [] base] else content)

/-- One iteration of the `needs_split`/`max_len` scan over a row's cells. -/
def rowScanStep (st : Bool × Nat) (cell : List PFlow) : Bool × Nat :=
  if cell.length > MAX_PARAGRAPHS_PER_CELL then (true, max st.2 cell.length)
  else if cell.length > st.2 then (st.1, cell.length)
  else st

/-- The `needs_split`/`max_len` scan over a row's resolved cells, embedded
as the source's left-to-right loop. -/
def rowSplitScan (row_items : List (List PFlow)) : Bool × Nat :=
  row_items.foldl rowScanStep (false, 0)

/-- `math.ceil (a / b)` for naturals. -/
def ceilDiv (a b : Nat) : Nat := (a + b - 1) / b

/-- The contribution of one cell to sub-row `i`: the slice
`[i*N, i*N+N)` of its blocks when it starts inside the cell (with the
source's `or`-fallback to a placeholder for an empty slice), else an
empty-text placeholder paragraph. -/
def splitRowSlice (base : ParaStyle) (cell : List PFlow) (i : Nat) :
    List PFlow :=
  if i * MAX_PARAGRAPHS_PER_CELL < cell.length then
    if ((cell.drop (i * MAX_PARAGRAPHS_PER_CELL)).take
        MAX_PARAGRAPHS_PER_CELL).isEmpty then [.para [] base]
    else (cell.drop (i * MAX_PARAGRAPHS_PER_CELL)).take MAX_PARAGRAPHS_PER_CELL
  else [.para [] base]

/-- Row splitting: if some cell exceeds the per-cell budget, emit
`ceil(max_len / N)` sub-rows of slices; otherwise emit the row as-is
(the source computes the scan once into `needs_split`/`max_len`). -/
def splitRowItems (base : ParaStyle) (row_items : List (List PFlow)) :
    List (List (List PFlow)) :=
  if (rowSplitScan row_items).1 then
    (List.range (ceilDiv (rowSplitScan row_items).2 MAX_PARAGRAPHS_PER_CELL)).map
      (fun i => row_items.map (fun cell => splitRowSlice base cell i))
  else [row_items]

/-- Effectful map over a list under `Except` (the per-cell loop shape). -/
def mapExcept (f : α → Except Unit β) : List α → Except Unit (List β)
  | [] => .ok []
  | a :: as => do
      let b ← f a
      let bs ← mapExcept f as
      .ok (b :: bs)

/-- One iteration of the row loop of `TableHandler.handle`: resolve the
row's cells, then append the (possibly split) row(s) to the grid. -/
def tableRowStep (buffer : List Char) (base : ParaStyle)
    (acc : List (List (List PFlow))) (row : List (List ParaElem)) :
    Except Unit (List (List (List PFlow))) := do
  let items ← mapExcept (resolveCell buffer base) row
  pure (acc ++ splitRowItems base items)

/-- The `table_data` grid built by `TableHandler.handle`'s row loop. -/
def tableData (buffer : List Char) (base : ParaStyle)
    (rows : List (List (List ParaElem))) :
    Except Unit (List (List (List PFlow))) :=
  rows.foldlM (tableRowStep buffer base) []

/-- Column widths: applied only when the comma-split `columnSpans` list has
exactly `columnCount` items and every item parses as a float (a parse
failure is caught and leaves the widths unset). -/
def parseColWidths (spans : List FloatAttr) (col_count : Int) :
    Option (List ℚ) :=
  if (spans.length : Int) = col_count then
    spans.mapM (fun a => match a with | .num v => some v | _ => none)
  else none

/-- The renderer-facing flowables appended to `pdf_elements`. -/
inductive Flowable where
  | para (text : List Char) (style : ParaStyle)
  | image (img : InlineImage)
  | spacer (w h : ℚ)
  | pageBreak
  | table (grid : List (List (List PFlow))) (colWidths : Option (List ℚ))
      (border : BorderStyle)
deriving DecidableEq

/-- Inclusion of paragraph-handler flowables into the general flowable type. -/
def PFlow.toFlowable : PFlow → Flowable
  | .para t s => .para t s
  | .image i => .image i

/-- `TableHandler.handle`: build the grid, then parse `columnCount` (an
unparsable value raises) and the column widths, and emit one table
flowable. -/
def TableHandler.handle (buffer : List Char) (base : ParaStyle)
    (t : TableElem) : Except Unit (List Flowable) := do
  let data ← tableData buffer base t.rows
  let col_count ← intOfAttr t.columnCount 1
  .ok [Flowable.table data (parseColWidths t.columnSpans col_count)
        (borderOf t.border)]

/-- A generic XML element subtree (tag, `.text`, `.tail`, children), used to
model unknown elements and `Element.itertext`. -/
inductive XTree where
  | node (tag : String) (text : List Char) (tail : List Char)
      (children : List XTree)

/-- The element's tag. -/
def XTree.tag : XTree → String
  | .node t _ _ _ => t

/-- The element's `.tail` text. -/
def XTree.tailText : XTree → List Char
  | .node _ _ tl _ => tl

mutual

/-- `Element.itertext`: the element's own text followed by, for each child
in order, the child's itertext and then the child's tail. -/
def XTree.itertext : XTree → List Char
  | .node _ t _ cs => t ++ itertextChildren cs

/-- `itertext` over a child list. -/
def itertextChildren : List XTree → List Char
  | [] => []
  | c :: rest => c.itertext ++ c.tailText ++ itertextChildren rest

end

/-- Python `str.strip()`: drop whitespace at both ends. -/
def pyStrip (s : List Char) : List Char :=
  ((s.dropWhile Char.isWhitespace).reverse.dropWhile Char.isWhitespace).reverse

/-- The style of the unknown-element placeholder paragraph: gray text,
indented 20pt, on the base style. -/
def unknownStyle (base : ParaStyle) : ParaStyle :=
  { base with textGray := true, leftIndent := 20 }

/-- `UDFConverter._handle_unknown_element`: concatenate the subtree's
visible text; when the stripped text is nonempty, emit one gray placeholder
paragraph `[UNKNOWN: tag] text` and a spacer, otherwise emit nothing. -/
def handle_unknown_element (base : ParaStyle) (tree : XTree) : List Flowable :=
  let text := pyStrip tree.itertext
  if text ≠ [] then
    [.para ("[UNKNOWN: ".data ++ tree.tag.data ++ "] ".data ++ text)
        (unknownStyle base),
      .spacer 1 5]
  else []

/-- A body element as dispatched by `UDFConverter._process_elements`: the
constructor records the result of the registry lookup on the element's tag
(the module registers exactly `paragraph`, `table` and `page-break`; every
other tag has no handler). -/
inductive BodyElem where
  | paragraph (p : ParaElem)
  | table (t : TableElem)
  | pageBreak
  | unknown (tree : XTree)

/-- One iteration of the body-dispatch loop: a found handler is invoked
inside `try/except` — on success its flowables are appended (plus a spacer
after paragraphs and tables), on exception the error is logged and nothing
is appended; a missing handler goes to the unknown-element fallback. -/
def processBodyElem (buffer : List Char) (base : ParaStyle)
    (acc : List Flowable) (e : BodyElem) : List Flowable :=
  match e with
  | .paragraph p =>
      match ParagraphHandler.handle buffer base p with
      | .ok fl => acc ++ fl.map PFlow.toFlowable ++ [.spacer 1 5]
      | .error _ => acc
  | .table t =>
      match TableHandler.handle buffer base t with
      | .ok fl => acc ++ fl ++ [.spacer 1 5]
      | .error _ => acc
  | .pageBreak => acc ++ [.pageBreak]
  | .unknown tree => acc ++ handle_unknown_element base tree

/-- The body-dispatch loop of `UDFConverter._process_elements`. -/
def processBody (buffer : List Char) (base : ParaStyle)
    (body : List BodyElem) : List Flowable :=
  body.foldl (processBodyElem buffer base) []

/-- `isinstance(f, Paragraph)` on a paragraph-handler flowable. -/
def isParagraphFlowable : PFlow → Bool
  | .para _ _ => true
  | .image _ => false

/-- One iteration of the header/footer loop: handle the paragraph and keep
only its `Paragraph` flowables. -/
def headerFooterStep (buffer : List Char) (base : ParaStyle)
    (acc : List PFlow) (p : ParaElem) : Except Unit (List PFlow) := do
  let fl ← ParagraphHandler.handle buffer base p
  pure (acc ++ fl.filter isParagraphFlowable)

/-- The header/footer collection of `UDFConverter._process_elements`: run
the paragraph handler on each section paragraph and retain only the
`Paragraph` flowables (exceptions are not caught here and propagate). -/
def collectHeaderFooter (buffer : List Char) (base : ParaStyle)
    (paras : List ParaElem) : Except Unit (List PFlow) :=
  paras.foldlM (headerFooterStep buffer base) []

/-- Page margins. -/
structure Margins where
  left : ℚ
  right : ℚ
  top : ℚ
  bottom : ℚ
deriving DecidableEq

/-- The margins dictionary as initialised in `UDFConverter.__init__`. -/
def defaultMargins : Margins :=
  ⟨DEFAULT_MARGIN_PTS, DEFAULT_MARGIN_PTS, DEFAULT_MARGIN_PTS, DEFAULT_MARGIN_PTS⟩

/-- The `<pageFormat>` element: whether it has child elements (Python
`Element` truthiness) and its margin attributes. -/
structure PageFormatElem where
  hasChildren : Bool
  leftMargin : FloatAttr
  rightMargin : FloatAttr
  topMargin : FloatAttr
  bottomMargin : FloatAttr
deriving DecidableEq

/-- The `<properties>` element: truthiness and optional `<pageFormat>`. -/
structure PropsElem where
  hasChildren : Bool
  pageFormat : Option PageFormatElem

/-- The margin part of `UDFConverter._setup_page_properties`: the defaults
survive unless the `properties` node exists and is truthy (has children)
and so does `pageFormat`; then each margin attribute is read through
`float` with the default as fallback string — an unparsable attribute
raises out of the conversion. -/
def setupMargins (props : Option PropsElem) : Except Unit Margins :=
  match props with
  | none => .ok defaultMargins
  | some pr =>
      if pr.hasChildren then
        match pr.pageFormat with
        | none => .ok defaultMargins
        | some fmt =>
            if fmt.hasChildren then do
              let l ← floatOfAttr fmt.leftMargin DEFAULT_MARGIN_PTS
              let r ← floatOfAttr fmt.rightMargin DEFAULT_MARGIN_PTS
              let t ← floatOfAttr fmt.topMargin DEFAULT_MARGIN_PTS
              let b ← floatOfAttr fmt.bottomMargin DEFAULT_MARGIN_PTS
              .ok ⟨l, r, t, b⟩
            else .ok defaultMargins
      else .ok defaultMargins

/-- Structural worker for `strReplace`; the fuel argument only makes the
recursion structural, it never runs out when started at the input length
(every step consumes at least one character of a nonempty pattern). -/
def strReplaceAux (pat : List Char) : Nat → List Char → List Char
  | 0, l => l
  | _ + 1, [] => []
  | fuel + 1, c :: rest =>
      if pat.isPrefixOf (c :: rest) then
        strReplaceAux pat fuel ((c :: rest).drop pat.length)
      else c :: strReplaceAux pat fuel rest

/-- Python `s.replace(pat, '')`: delete every non-overlapping, leftmost
occurrence of `pat`. -/
def strReplace (l pat : List Char) : List Char :=
  if pat = [] then l else strReplaceAux pat l.length l

/-- Split a character list on `'/'`. -/
def splitSlash (l : List Char) : List (List Char) :=
  l.foldr (fun c acc =>
    if c = '/' then [] :: acc
    else
      match acc with
      | [] => [[c]]
      | a :: as => (c :: a) :: as) [[]]

/-- The non-empty path components of a POSIX path string. -/
def pathParts (l : List Char) : List String :=
  ((splitSlash l).filter (· ≠ [])).map (fun cs => String.mk cs)

/-- The component normalisation of `os.path.normpath`: drop `.`, let `..`
pop the previous component (at the root of an absolute path a leading `..`
is dropped; in a relative path leading `..` components are kept). -/
def normParts (isAbsolute : Bool) (cs : List String) : List String :=
  cs.foldl (fun stack c =>
    if c = "." then stack
    else if c = ".." then
      match stack.getLast? with
      | none => if isAbsolute then [] else [".."]
      | some last => if last = ".." then stack ++ [".."] else stack.dropLast
    else stack ++ [c]) []

/-- `os.path.commonpath` on two absolute paths: the component-wise longest
common prefix. -/
def commonPath : List String → List String → List String
  | a :: as, b :: bs => if a = b then a :: commonPath as bs else []
  | _, _ => []

/-- The external-path branch of `UDFConverter._process_background_image`,
on path component lists: strip the resource-folder markers, normalise,
resolve against the output directory (an absolute reference ignores the
base, as `os.path.join` does), and use the result only if the commonpath
check against the output directory passes and the file exists; otherwise
drop it (a warning is logged). -/
def bgFullPath (outDir : List String) (source : String) : List String :=
  let clean := strReplace (strReplace source.data "/resources/".data)
    "\\resources\\".data
  let cleanAbs : Bool := decide (clean.head? = some '/')
  let cleanParts := normParts cleanAbs (pathParts clean)
  if cleanAbs then cleanParts else normParts true (outDir ++ cleanParts)

/-- The guard and assignment of the external-path branch: use the resolved
path only if the commonpath check against the output directory passes and
the file exists; otherwise drop it (a warning is logged). -/
def processBgSource (outDir : List String) (source : String)
    (fsExists : List String → Bool) : Option (List String) :=
  let full := bgFullPath outDir source
  if commonPath outDir full = outDir ∧ fsExists full then some full else none

/-- The embedded-data branch of `_process_background_image`: decode
(`none` models a caught decode exception), validate, and keep the image
only when validation passes. -/
def process_background_data (decoded : Option (Nat × Nat)) :
    Option (Nat × Nat) :=
  match decoded with
  | none => none
  | some (w, h) =>
      match validate_image_safety w h with
      | some _ => some (w, h)
      | none => none

/-- The background image stored on the converter. -/
inductive BgImage where
  | embedded (w h : Nat)
  | file (path : List String)
deriving DecidableEq

/-- The `bgImage` node's payload: `data` when `bgImageData` is truthy,
otherwise `source` when `bgImageSource` is truthy, otherwise neither. -/
inductive BgSpec where
  | data (decoded : Option (Nat × Nat))
  | source (path : String)
  | neither

/-- `UDFConverter._process_background_image`. -/
def process_background_image (outDir : List String)
    (fsExists : List String → Bool) : BgSpec → Option BgImage
  | .data decoded => (process_background_data decoded).map (fun p => .embedded p.1 p.2)
  | .source s => (processBgSource outDir s fsExists).map .file
  | .neither => none

/-! ### Spec-side definitions used to state the properties -/

/-- The nested composition of style markup the spec describes: italic
innermost, then bold, then underline outermost. -/
def styleNest (text : List Char) (b i u : Bool) : List Char :=
  let t1 := if i then "<i>".data ++ text ++ "</i>".data else text
  let t2 := if b then "<b>".data ++ t1 ++ "</b>".data else t1
  if u then "<u>".data ++ t2 ++ "</u>".data else t2

/-- A concrete base paragraph style for closed instances. -/
def sampleStyle : ParaStyle := ⟨.left, 0, 0, 0, 12, 12, false⟩

/-- A paragraph whose sole child is an inline image with the given decoded
dimensions, all style attributes absent. -/
def soloImagePara (w h : Nat) : ParaElem :=
  ⟨none, .absent, .absent, .absent, .absent, .absent,
    [.image (some (some (w, h)))]⟩

/-- The paragraph style produced from a base style when every style
attribute is absent (alignment left, indents 0, size 12, line spacing 1.2). -/
def derivedDefaultStyle (base : ParaStyle) : ParaStyle :=
  { base with
    alignment := .left, leftIndent := 0, rightIndent := 0,
    firstLineIndent := 0, fontSize := 12, leading := 12 * max 1 (6 / 5) }

/-! ### Helper lemmas -/

lemma buildParaStyle_absent (base : ParaStyle) (runs : List RunNode) :
    buildParaStyle base ⟨none, .absent, .absent, .absent, .absent, .absent, runs⟩
      = .ok (derivedDefaultStyle base) := by
  simp [buildParaStyle, floatOfAttr, get_alignment_style, derivedDefaultStyle,
    MIN_FONT_SIZE, MAX_FONT_SIZE, Bind.bind, Except.bind, max_def, min_def]
  try norm_num

lemma format_text_styles_eq_styleNest (t : List Char) (b i u : Bool) :
    format_text_styles t b i u = styleNest t b i u := by
  have h1 : "<u><b><i>".data = "<u>".data ++ ("<b>".data ++ "<i>".data) := by
    decide
  have h2 : "</i></b></u>".data = "</i>".data ++ ("</b>".data ++ "</u>".data) := by
    decide
  have h3 : "<b><i>".data = "<b>".data ++ "<i>".data := by decide
  have h4 : "</i></b>".data = "</i>".data ++ "</b>".data := by decide
  have h5 : "<u><b>".data = "<u>".data ++ "<b>".data := by decide
  have h6 : "</b></u>".data = "</b>".data ++ "</u>".data := by decide
  have h7 : "<u><i>".data = "<u>".data ++ "<i>".data := by decide
  have h8 : "</i></u>".data = "</i>".data ++ "</u>".data := by decide
  cases b <;> cases i <;> cases u <;>
    simp [format_text_styles, styleNest, h1, h2, h3, h4, h5, h6, h7, h8,
      List.append_assoc]

/-! ### Claim theorems -/

/-- C1: a text run or field run whose `(startOffset, length)` reference is
within the content buffer renders exactly `buffer[start:start+length]`
(the slice of length `length` at offset `start`); an out-of-range
reference clips to the buffer end instead of failing; and the slice is
wrapped with the style markup composed underline-outermost, then bold,
then italic, for every combination of the three flags. -/
theorem text_run_rendering (buffer t name : List Char) (s l : Nat)
    (b i u : Bool) :
    (s + l ≤ buffer.length →
      pySlice buffer s l = (buffer.take (s + l)).drop s ∧
      (pySlice buffer s l).length = l) ∧
    (buffer.length ≤ s + l → pySlice buffer s l = buffer.drop s) ∧
    process_text_node buffer s l b i u
      = format_text_styles (pySlice buffer s l) b i u ∧
    process_field_node buffer name (some (s, l)) b i u
      = process_text_node buffer s l b i u ∧
    format_text_styles t b i u = styleNest t b i u := by
  refine ⟨fun h => ⟨?_, ?_⟩, fun h => ?_, rfl, rfl,
    format_text_styles_eq_styleNest t b i u⟩
  · rw [List.drop_take, Nat.add_sub_cancel_left]
    rfl
  · simp only [pySlice, List.length_take, List.length_drop]
    omega
  · simp only [pySlice]
    exact List.take_of_length_le (by simp [List.length_drop]; omega)

/-- Witness for C1 at a concrete buffer: an in-range reference and a
reference overshooting the buffer end. -/
theorem text_run_rendering_witness :
    (pySlice "abcdef".data 2 3 = ("abcdef".data.take 5).drop 2 ∧
      (pySlice "abcdef".data 2 3).length = 3) ∧
    pySlice "abcdef".data 4 10 = "abcdef".data.drop 4 :=
  ⟨(text_run_rendering "abcdef".data [] [] 2 3 true false true).1 (by decide),
    (text_run_rendering "abcdef".data [] [] 4 10 true false true).2.1
      (by decide)⟩

/-- C6: an image whose pixel count exceeds the ceiling or whose width or
height exceeds 10000 is rejected by the validator; the caller gets no
image — an inline image becomes the literal `[GÖRSEL]` placeholder in the
text stream and an embedded background image is silently omitted; images
within both bounds are accepted. -/
theorem image_safety_validation (w h : Nat) (outDir : List String)
    (fsExists : List String → Bool) (buffer : List Char) (base : ParaStyle) :
    (w * h > MAX_IMAGE_PIXELS ∨ w > MAX_IMAGE_WIDTH ∨ h > MAX_IMAGE_HEIGHT →
      validate_image_safety w h = none ∧
      process_inline_image (some (some (w, h))) = none ∧
      ParagraphHandler.handle buffer base (soloImagePara w h)
        = .ok [.para "[GÖRSEL]".data (derivedDefaultStyle base)] ∧
      process_background_image outDir fsExists (.data (some (w, h))) = none) ∧
    (w * h ≤ MAX_IMAGE_PIXELS ∧ w ≤ MAX_IMAGE_WIDTH ∧ h ≤ MAX_IMAGE_HEIGHT →
      validate_image_safety w h = some (w, h)) := by
  constructor
  · intro hrej
    have hv : validate_image_safety w h = none := by
      unfold validate_image_safety
      split_ifs with h1 h2
      · rfl
      · rfl
      · exfalso
        rcases hrej with a | a | a
        · exact h1 a
        · exact h2 (Or.inl a)
        · exact h2 (Or.inr a)
    have hp : process_inline_image (some (some (w, h))) = none := by
      simp [process_inline_image, hv]
    refine ⟨hv, hp, ?_, ?_⟩
    · simp [ParagraphHandler.handle, soloImagePara, buildParaStyle,
        floatOfAttr, get_alignment_style, paraLoop, paraStep, hp,
        capAppendText, derivedDefaultStyle, MAX_TEXT_CHUNK_LENGTH,
        MIN_FONT_SIZE, MAX_FONT_SIZE, Bind.bind, Except.bind, max_def,
        min_def]
      try norm_num
    · simp [process_background_image, process_background_data, hv]
  · rintro ⟨h1, h2, h3⟩
    unfold validate_image_safety
    rw [if_neg (by omega), if_neg (by push_neg; omega)]

/-- Witness for C6: a 10000×10000 image (100 million pixels) is rejected
end-to-end, and a 100×50 image is accepted. -/
theorem image_safety_validation_witness :
    (validate_image_safety 10000 10000 = none ∧
      process_inline_image (some (some (10000, 10000))) = none ∧
      ParagraphHandler.handle [] sampleStyle (soloImagePara 10000 10000)
        = .ok [.para "[GÖRSEL]".data (derivedDefaultStyle sampleStyle)] ∧
      process_background_image [] (fun _ => false)
        (.data (some (10000, 10000))) = none) ∧
    validate_image_safety 100 50 = some (100, 50) :=
  ⟨(image_safety_validation 10000 10000 [] (fun _ => false) [] sampleStyle).1
      (by decide),
    (image_safety_validation 100 50 [] (fun _ => false) [] sampleStyle).2
      (by decide)⟩

lemma prefix_of_commonPath : ∀ (a b : List String),
    commonPath a b = a → a <+: b := by
  intro a
  induction a with
  | nil => intro b _; exact List.nil_prefix
  | cons x xs ih =>
      intro b h
      cases b with
      | nil => simp [commonPath] at h
      | cons y ys =>
          by_cases hxy : x = y
          · subst hxy
            simp only [commonPath, if_true, eq_self_iff_true,
              List.cons.injEq, true_and] at h
            rcases ih ys h with ⟨t, ht⟩
            exact ⟨t, by rw [List.cons_append, ht]⟩
          · simp [commonPath, hxy] at h

/-- C5: a background image referenced by external path is used only when
the resolved absolute path stays inside the output directory (the
commonpath ancestor check); otherwise it is dropped (with a warning, the
`none` branch).  A `../../../etc/hosts`-style traversal is rejected even
when the file exists, while a legitimate sibling file inside the output
directory is accepted. -/
theorem background_path_traversal (outDir : List String) (source : String)
    (fsExists : List String → Bool) (p : List String) :
    (processBgSource outDir source fsExists = some p → outDir <+: p) ∧
    processBgSource ["tmp", "out"] "../../../etc/hosts" (fun _ => true)
      = none ∧
    processBgSource ["tmp", "out"] "bg.png"
        (fun q => decide (q = ["tmp", "out", "bg.png"]))
      = some ["tmp", "out", "bg.png"] := by
  refine ⟨?_, by decide, by decide⟩
  intro hsome
  simp only [processBgSource] at hsome
  by_cases hc : commonPath outDir (bgFullPath outDir source) = outDir ∧
      fsExists (bgFullPath outDir source)
  · rw [if_pos hc] at hsome
    cases hsome
    exact prefix_of_commonPath _ _ hc.1
  · rw [if_neg hc] at hsome
    exact absurd hsome (by simp)

/-- Witness for C5: the safety statement applied at the accepted sibling
file. -/
theorem background_path_traversal_witness :
    processBgSource ["tmp", "out"] "bg.png"
        (fun q => decide (q = ["tmp", "out", "bg.png"]))
      = some ["tmp", "out", "bg.png"] ∧
    ["tmp", "out"] <+: ["tmp", "out", "bg.png"] :=
  ⟨by decide,
    (background_path_traversal ["tmp", "out"] "bg.png"
        (fun q => decide (q = ["tmp", "out", "bg.png"]))
        ["tmp", "out", "bg.png"]).1 (by decide)⟩

/-- C9 counterexample: the claim says margins are always non-negative and
that unparsable attributes fall back to the default.  On the code, a
parsable negative `leftMargin` is used as-is (giving a negative margin),
and an unparsable `leftMargin` raises out of the conversion instead of
defaulting. -/
theorem margins_counterexample :
    setupMargins (some ⟨true, some ⟨true, .num (-5), .absent, .absent, .absent⟩⟩)
      = .ok ⟨-5, DEFAULT_MARGIN_PTS, DEFAULT_MARGIN_PTS, DEFAULT_MARGIN_PTS⟩ ∧
    (-5 : ℚ) < 0 ∧
    setupMargins (some ⟨true, some ⟨true, .junk, .absent, .absent, .absent⟩⟩)
      = .error () := by
  refine ⟨rfl, by norm_num, rfl⟩

/-- C9 amended: margins are read from `pageFormat` attributes only when
both the `properties` and `pageFormat` nodes have child elements (Python
`Element` truthiness); absent attributes default to 42.5pt; an unparsable
attribute raises an error that aborts the conversion; parsed values are
used as-is and may be negative.  The default itself is non-negative. -/
theorem margins_behavior (pf : Option PageFormatElem) (l r t b : FloatAttr)
    (lq rq tq bq : ℚ) :
    setupMargins none = .ok defaultMargins ∧
    setupMargins (some ⟨false, pf⟩) = .ok defaultMargins ∧
    setupMargins (some ⟨true, none⟩) = .ok defaultMargins ∧
    setupMargins (some ⟨true, some ⟨false, l, r, t, b⟩⟩) = .ok defaultMargins ∧
    setupMargins
        (some ⟨true, some ⟨true, .absent, .absent, .absent, .absent⟩⟩)
      = .ok defaultMargins ∧
    setupMargins (some ⟨true, some ⟨true, .junk, r, t, b⟩⟩) = .error () ∧
    setupMargins
        (some ⟨true, some ⟨true, .num lq, .num rq, .num tq, .num bq⟩⟩)
      = .ok ⟨lq, rq, tq, bq⟩ ∧
    0 ≤ DEFAULT_MARGIN_PTS :=
  ⟨rfl, rfl, rfl, rfl, rfl, rfl, rfl, by norm_num [DEFAULT_MARGIN_PTS]⟩

/-- A header paragraph containing a text run and a valid inline image. -/
def imgTextPara : ParaElem :=
  ⟨none, .absent, .absent, .absent, .absent, .absent,
    [.content 0 5 false false false, .image (some (some (10, 10)))]⟩

lemma handle_imgTextPara :
    ParagraphHandler.handle ['h', 'e', 'l', 'l', 'o'] sampleStyle imgTextPara
      = .ok [.para ['h', 'e', 'l', 'l', 'o'] (derivedDefaultStyle sampleStyle),
          .image ⟨((10 : Nat) : ℚ), ((10 : Nat) : ℚ)⟩] := by
  simp only [ParagraphHandler.handle, imgTextPara, buildParaStyle_absent,
    Bind.bind, Except.bind]
  rfl

lemma collect_imgTextPara :
    collectHeaderFooter ['h', 'e', 'l', 'l', 'o'] sampleStyle [imgTextPara]
      = .ok [.para ['h', 'e', 'l', 'l', 'o'] (derivedDefaultStyle sampleStyle)] := by
  simp only [collectHeaderFooter, List.foldlM, headerFooterStep,
    handle_imgTextPara, Bind.bind, Except.bind]
  rfl

/-- C10: header/footer processing retains only `Paragraph` flowables; an
image block produced by an inline image inside a header/footer paragraph
is silently discarded (no placeholder, no warning), while the body handler
for the same paragraph does produce the image block. -/
theorem header_footer_text_only (buffer : List Char) (base : ParaStyle)
    (paras : List ParaElem) (fl : List PFlow) :
    (collectHeaderFooter buffer base paras = .ok fl →
      ∀ f ∈ fl, isParagraphFlowable f = true) ∧
    ParagraphHandler.handle ['h', 'e', 'l', 'l', 'o'] sampleStyle imgTextPara
      = .ok [.para ['h', 'e', 'l', 'l', 'o'] (derivedDefaultStyle sampleStyle),
          .image ⟨((10 : Nat) : ℚ), ((10 : Nat) : ℚ)⟩] ∧
    collectHeaderFooter ['h', 'e', 'l', 'l', 'o'] sampleStyle [imgTextPara]
      = .ok [.para ['h', 'e', 'l', 'l', 'o'] (derivedDefaultStyle sampleStyle)] := by
  refine ⟨?_, handle_imgTextPara, collect_imgTextPara⟩
  have aux : ∀ (ps : List ParaElem) (acc res : List PFlow),
      List.foldlM (headerFooterStep buffer base) acc ps = .ok res →
      (∀ f ∈ acc, isParagraphFlowable f = true) →
      ∀ f ∈ res, isParagraphFlowable f = true := by
    intro ps
    induction ps with
    | nil => intro acc res h hacc; cases h; exact hacc
    | cons p ps ih =>
        intro acc res h hacc
        rw [List.foldlM_cons] at h
        cases hp : ParagraphHandler.handle buffer base p with
        | error e =>
            rw [headerFooterStep, hp] at h
            simp [Bind.bind, Except.bind] at h
        | ok fl' =>
            rw [headerFooterStep, hp] at h
            simp only [Bind.bind, Except.bind, pure, Except.pure] at h
            refine ih _ _ h ?_
            intro f hf
            rcases List.mem_append.mp hf with hf | hf
            · exact hacc f hf
            · exact (List.mem_filter.mp hf).2
  intro h
  exact aux paras [] fl h (by simp)

/-- Witness for C10: the retained header flowables for the image-bearing
paragraph are all text paragraphs. -/
theorem header_footer_text_only_witness :
    collectHeaderFooter ['h', 'e', 'l', 'l', 'o'] sampleStyle [imgTextPara]
      = .ok [.para ['h', 'e', 'l', 'l', 'o'] (derivedDefaultStyle sampleStyle)] ∧
    ∀ f ∈ [PFlow.para ['h', 'e', 'l', 'l', 'o'] (derivedDefaultStyle sampleStyle)],
      isParagraphFlowable f = true :=
  ⟨collect_imgTextPara,
    (header_footer_text_only ['h', 'e', 'l', 'l', 'o'] sampleStyle [imgTextPara]
        [.para ['h', 'e', 'l', 'l', 'o'] (derivedDefaultStyle sampleStyle)]).1
      collect_imgTextPara⟩

lemma processBodyElem_append (buffer : List Char) (base : ParaStyle)
    (acc : List Flowable) (e : BodyElem) :
    processBodyElem buffer base acc e
      = acc ++ processBodyElem buffer base [] e := by
  cases e with
  | paragraph p =>
      cases h : ParagraphHandler.handle buffer base p <;>
        simp [processBodyElem, h]
  | table t =>
      cases h : TableHandler.handle buffer base t <;>
        simp [processBodyElem, h]
  | pageBreak => simp [processBodyElem]
  | unknown tree => simp [processBodyElem]

lemma processBody_acc (buffer : List Char) (base : ParaStyle) :
    ∀ (xs : List BodyElem) (acc : List Flowable),
      xs.foldl (processBodyElem buffer base) acc
        = acc ++ xs.foldl (processBodyElem buffer base) [] := by
  intro xs
  induction xs with
  | nil => intro acc; simp
  | cons x xs ih =>
      intro acc
      rw [List.foldl_cons, List.foldl_cons, ih (processBodyElem buffer base acc x),
        ih (processBodyElem buffer base [] x),
        processBodyElem_append buffer base acc x, List.append_assoc]

lemma processBody_append (buffer : List Char) (base : ParaStyle)
    (xs ys : List BodyElem) :
    processBody buffer base (xs ++ ys)
      = processBody buffer base xs ++ processBody buffer base ys := by
  unfold processBody
  rw [List.foldl_append, processBody_acc]

/-- The shared content buffer of the unknown-tag scenario. -/
def xyzBuffer : List Char := ['H', 'e', 'l', 'l', 'o', 'W', 'o', 'r', 'l', 'd']

/-- A recognised paragraph rendering `Hello`. -/
def xyzPara1 : ParaElem :=
  ⟨none, .absent, .absent, .absent, .absent, .absent,
    [.content 0 5 false false false]⟩

/-- A recognised paragraph rendering `World`. -/
def xyzPara2 : ParaElem :=
  ⟨none, .absent, .absent, .absent, .absent, .absent,
    [.content 5 5 false false false]⟩

/-- An unrecognised element with child text `XYZ`. -/
def xyzUnknown : XTree := .node "custom" ['X', 'Y', 'Z'] [] []

lemma handle_xyzPara1 :
    ParagraphHandler.handle xyzBuffer sampleStyle xyzPara1
      = .ok [.para ['H', 'e', 'l', 'l', 'o'] (derivedDefaultStyle sampleStyle)] := by
  simp only [ParagraphHandler.handle, xyzPara1, buildParaStyle_absent,
    Bind.bind, Except.bind]
  rfl

lemma handle_xyzPara2 :
    ParagraphHandler.handle xyzBuffer sampleStyle xyzPara2
      = .ok [.para ['W', 'o', 'r', 'l', 'd'] (derivedDefaultStyle sampleStyle)] := by
  simp only [ParagraphHandler.handle, xyzPara2, buildParaStyle_absent,
    Bind.bind, Except.bind]
  rfl

/-- C7 counterexample: the claim asks for a visibly-marked placeholder
block for *every* unknown element; an unknown element whose subtree text
is empty produces no block at all (`if text:` skips the placeholder). -/
theorem unknown_empty_counterexample :
    processBody [] sampleStyle [.unknown (.node "custom" [] [] [])] = [] ∧
    handle_unknown_element sampleStyle (.node "custom" [] [] []) = [] := by
  exact ⟨rfl, rfl⟩

/-- C7 amended: an unknown element never aborts dispatch; when the
stripped subtree text is nonempty it yields one gray `[UNKNOWN: tag] text`
placeholder paragraph plus a spacer (and nothing otherwise), elements
before and after it are processed in document order, and the concrete
paragraph/unknown-`XYZ`/paragraph document renders the placeholder between
the two paragraphs' content. -/
theorem unknown_element_fallback (base : ParaStyle) (tree : XTree)
    (buffer : List Char) (xs ys : List BodyElem) :
    (pyStrip tree.itertext ≠ [] →
      handle_unknown_element base tree
        = [.para ("[UNKNOWN: ".data ++ tree.tag.data ++ "] ".data
              ++ pyStrip tree.itertext) (unknownStyle base),
           .spacer 1 5]) ∧
    (pyStrip tree.itertext = [] → handle_unknown_element base tree = []) ∧
    processBody buffer base (xs ++ .unknown tree :: ys)
      = processBody buffer base xs ++ handle_unknown_element base tree
        ++ processBody buffer base ys ∧
    processBody xyzBuffer sampleStyle
        [.paragraph xyzPara1, .unknown xyzUnknown, .paragraph xyzPara2]
      = [.para ['H', 'e', 'l', 'l', 'o'] (derivedDefaultStyle sampleStyle),
         .spacer 1 5,
         .para "[UNKNOWN: custom] XYZ".data (unknownStyle sampleStyle),
         .spacer 1 5,
         .para ['W', 'o', 'r', 'l', 'd'] (derivedDefaultStyle sampleStyle),
         .spacer 1 5] := by
  refine ⟨?_, ?_, ?_, ?_⟩
  · intro h
    rw [handle_unknown_element, if_pos h]
  · intro h
    rw [handle_unknown_element, if_neg (by simp [h])]
  · rw [show (BodyElem.unknown tree :: ys) = [BodyElem.unknown tree] ++ ys
        from rfl,
      processBody_append, processBody_append]
    simp [processBody, processBodyElem]
  · simp only [processBody, List.foldl_cons, List.foldl_nil,
      processBodyElem, handle_xyzPara1, handle_xyzPara2]
    rfl

/-- Witness for C7: the placeholder equation at the concrete `XYZ`
unknown element. -/
theorem unknown_element_fallback_witness :
    pyStrip xyzUnknown.itertext ≠ [] ∧
    handle_unknown_element sampleStyle xyzUnknown
      = [.para ("[UNKNOWN: ".data ++ "custom".data ++ "] ".data
            ++ pyStrip xyzUnknown.itertext) (unknownStyle sampleStyle),
         .spacer 1 5] :=
  ⟨by decide,
    (unknown_element_fallback sampleStyle xyzUnknown [] [] []).1 (by decide)⟩

/-- A paragraph whose handler raises: its `LineSpacing` attribute is
unparsable, so `float(...)` raises `ValueError` inside `handle`. -/
def badPara : ParaElem :=
  ⟨none, .junk, .absent, .absent, .absent, .absent,
    [.content 0 5 false false false]⟩

/-- C8 counterexample: the claim says a failing handler is treated exactly
like an unknown tag, producing the same placeholder.  On the code the
exception is only logged: the element contributes nothing — no
`[UNKNOWN: ...]` placeholder — while the rest of the document is still
processed. -/
theorem handler_exception_counterexample :
    ParagraphHandler.handle xyzBuffer sampleStyle badPara = .error () ∧
    processBody xyzBuffer sampleStyle
        [.paragraph badPara, .paragraph xyzPara2]
      = [.para ['W', 'o', 'r', 'l', 'd'] (derivedDefaultStyle sampleStyle),
         .spacer 1 5] := by
  constructor
  · rfl
  · simp only [processBody, List.foldl_cons, List.foldl_nil,
      processBodyElem, handle_xyzPara2]
    rfl

/-- C8 amended: a handler exception (paragraph or table) is caught by the
dispatch loop; the failing element contributes no output (in particular no
unknown-style placeholder), and every other element of the document is
still processed in order. -/
theorem handler_exception_isolation (buffer : List Char) (base : ParaStyle)
    (p : ParaElem) (t : TableElem) (xs ys : List BodyElem) :
    (ParagraphHandler.handle buffer base p = .error () →
      processBody buffer base (xs ++ .paragraph p :: ys)
        = processBody buffer base xs ++ processBody buffer base ys) ∧
    (TableHandler.handle buffer base t = .error () →
      processBody buffer base (xs ++ .table t :: ys)
        = processBody buffer base xs ++ processBody buffer base ys) := by
  constructor
  · intro h
    rw [show (BodyElem.paragraph p :: ys) = [BodyElem.paragraph p] ++ ys
        from rfl,
      processBody_append, processBody_append]
    simp [processBody, processBodyElem, h]
  · intro h
    rw [show (BodyElem.table t :: ys) = [BodyElem.table t] ++ ys from rfl,
      processBody_append, processBody_append]
    simp [processBody, processBodyElem, h]

/-- Witness for C8: the isolation statement applied to the concrete
failing paragraph followed by a good paragraph. -/
theorem handler_exception_isolation_witness :
    ParagraphHandler.handle xyzBuffer sampleStyle badPara = .error () ∧
    processBody xyzBuffer sampleStyle
        ([] ++ .paragraph badPara :: [.paragraph xyzPara2])
      = processBody xyzBuffer sampleStyle []
        ++ processBody xyzBuffer sampleStyle [.paragraph xyzPara2] :=
  ⟨rfl,
    (handler_exception_isolation xyzBuffer sampleStyle badPara
        ⟨[], .absent, [], none⟩ [] [.paragraph xyzPara2]).1 rfl⟩

lemma rowScanStep_eq (st : Bool × Nat) (cell : List PFlow) :
    rowScanStep st cell
      = (st.1 || decide (MAX_PARAGRAPHS_PER_CELL < cell.length),
         max st.2 cell.length) := by
  unfold rowScanStep
  split_ifs with h1 h2
  · simp [h1]
  · simp [h1, max_eq_right (le_of_lt h2)]
  · simp [h1, max_eq_left (le_of_not_lt h2)]

lemma rowScan_general : ∀ (items : List (List PFlow)) (st : Bool × Nat),
    items.foldl rowScanStep st
      = (st.1 || items.any (fun c => decide (MAX_PARAGRAPHS_PER_CELL < c.length)),
         items.foldl (fun m c => max m c.length) st.2) := by
  intro items
  induction items with
  | nil => intro st; simp
  | cons c cs ih =>
      intro st
      rw [List.foldl_cons, rowScanStep_eq, ih]
      simp [Bool.or_assoc]

lemma splitRowSlice_eq (base : ParaStyle) (cell : List PFlow) (i : Nat) :
    splitRowSlice base cell i
      = if i * MAX_PARAGRAPHS_PER_CELL < cell.length then
          (cell.drop (i * MAX_PARAGRAPHS_PER_CELL)).take MAX_PARAGRAPHS_PER_CELL
        else [.para [] base] := by
  unfold splitRowSlice
  split_ifs with h h2
  · exfalso
    have h0 := List.isEmpty_iff.mp h2
    have hlen : ((cell.drop (i * MAX_PARAGRAPHS_PER_CELL)).take
        MAX_PARAGRAPHS_PER_CELL).length = 0 := by rw [h0]; rfl
    simp only [List.length_take, List.length_drop,
      MAX_PARAGRAPHS_PER_CELL] at hlen
    simp only [MAX_PARAGRAPHS_PER_CELL] at h
    omega
  · rfl
  · rfl

/-- C2: when some cell of a row exceeds the per-cell block budget N = 3,
the row is split into exactly `ceil(maxCellBlockCount / N)` sub-rows, and
in sub-row `i` each cell contributes the slice `[i*N, (i+1)*N)` of its own
block list, or a single empty-text placeholder paragraph when it has no
content at that slice. -/
theorem table_row_splitting (base : ParaStyle)
    (row_items : List (List PFlow)) :
    (∃ cell ∈ row_items, MAX_PARAGRAPHS_PER_CELL < cell.length) →
      (splitRowItems base row_items).length
        = ceilDiv (row_items.foldl (fun m c => max m c.length) 0)
            MAX_PARAGRAPHS_PER_CELL ∧
      splitRowItems base row_items
        = (List.range (ceilDiv (row_items.foldl (fun m c => max m c.length) 0)
              MAX_PARAGRAPHS_PER_CELL)).map (fun i =>
            row_items.map (fun cell =>
              if i * MAX_PARAGRAPHS_PER_CELL < cell.length then
                (cell.drop (i * MAX_PARAGRAPHS_PER_CELL)).take
                  MAX_PARAGRAPHS_PER_CELL
              else [.para [] base])) := by
  intro hex
  have hscan := rowScan_general row_items (false, 0)
  have hfst : (rowSplitScan row_items).1 = true := by
    unfold rowSplitScan
    rw [hscan]
    simpa using hex
  have hsnd : (rowSplitScan row_items).2
      = row_items.foldl (fun m c => max m c.length) 0 := by
    unfold rowSplitScan
    rw [hscan]
  have hmain : splitRowItems base row_items
      = (List.range (ceilDiv (row_items.foldl (fun m c => max m c.length) 0)
            MAX_PARAGRAPHS_PER_CELL)).map (fun i =>
          row_items.map (fun cell =>
            if i * MAX_PARAGRAPHS_PER_CELL < cell.length then
              (cell.drop (i * MAX_PARAGRAPHS_PER_CELL)).take
                MAX_PARAGRAPHS_PER_CELL
            else [.para [] base])) := by
    unfold splitRowItems
    rw [hfst, hsnd]
    simp only [if_true]
    simp only [splitRowSlice_eq]
  exact ⟨by rw [hmain]; simp, hmain⟩

/-- A cell resolved to seven render blocks. -/
def sevenBlocks : List PFlow := List.replicate 7 (.para ['a'] sampleStyle)

/-- A cell resolved to one render block. -/
def oneBlock : List PFlow := [.para ['b'] sampleStyle]

/-- Witness for C2: the 2-column row with 7 and 1 blocks splits into 3
sub-rows of 2 cells; column 2 is non-empty only in the first sub-row and
an empty placeholder in the remaining two. -/
theorem table_row_splitting_witness :
    (∃ cell ∈ [sevenBlocks, oneBlock],
      MAX_PARAGRAPHS_PER_CELL < cell.length) ∧
    (splitRowItems sampleStyle [sevenBlocks, oneBlock]).length = 3 ∧
    splitRowItems sampleStyle [sevenBlocks, oneBlock]
      = [[sevenBlocks.take 3, oneBlock],
         [(sevenBlocks.drop 3).take 3, [.para [] sampleStyle]],
         [sevenBlocks.drop 6, [.para [] sampleStyle]]] :=
  ⟨by decide,
    (table_row_splitting sampleStyle [sevenBlocks, oneBlock] (by decide)).1,
    by decide⟩

lemma mapExcept_length : ∀ (l : List α) (f : α → Except Unit β)
    (res : List β), mapExcept f l = .ok res → res.length = l.length := by
  intro l
  induction l with
  | nil => intro f res h; cases h; rfl
  | cons a as ih =>
      intro f res h
      cases hf : f a with
      | error e =>
          rw [mapExcept, hf] at h
          simp [Bind.bind, Except.bind] at h
      | ok b =>
          cases hm : mapExcept f as with
          | error e =>
              rw [mapExcept, hf, hm] at h
              simp [Bind.bind, Except.bind] at h
          | ok bs =>
              rw [mapExcept, hf, hm] at h
              simp only [Bind.bind, Except.bind] at h
              cases h
              simp [ih f bs hm]

lemma splitRowItems_length (base : ParaStyle)
    (row_items : List (List PFlow)) :
    ∀ r ∈ splitRowItems base row_items, r.length = row_items.length := by
  intro r hr
  unfold splitRowItems at hr
  split at hr
  · rcases List.mem_map.mp hr with ⟨i, _, rfl⟩
    simp
  · simp only [List.mem_singleton] at hr
    subst hr
    rfl

lemma tableData_aux (buffer : List Char) (base : ParaStyle) (k : Nat) :
    ∀ (rows : List (List (List ParaElem)))
      (acc grid : List (List (List PFlow))),
      List.foldlM (tableRowStep buffer base) acc rows = .ok grid →
      (∀ r ∈ acc, r.length = k) →
      (∀ row ∈ rows, row.length = k) →
      ∀ r ∈ grid, r.length = k := by
  intro rows
  induction rows with
  | nil => intro acc grid h hacc _; cases h; exact hacc
  | cons row rest ih =>
      intro acc grid h hacc hrows
      rw [List.foldlM_cons] at h
      cases hm : mapExcept (resolveCell buffer base) row with
      | error e =>
          rw [tableRowStep, hm] at h
          simp [Bind.bind, Except.bind] at h
      | ok items =>
          rw [tableRowStep, hm] at h
          simp only [Bind.bind, Except.bind, pure, Except.pure] at h
          refine ih _ _ h ?_
            (fun row' hrow' => hrows row' (List.mem_cons_of_mem _ hrow'))
          intro r hr
          rcases List.mem_append.mp hr with hr | hr
          · exact hacc r hr
          · rw [splitRowItems_length base items r hr,
              mapExcept_length row (resolveCell buffer base) items hm]
            exact hrows row (List.mem_cons_self _ _)

/-- C3 counterexample: the table handler never enforces `columnCount`
against the actual number of `<cell>` children.  A table declaring
`columnCount = 2` whose single row has one cell is emitted with a 1-cell
row. -/
theorem table_rectangularity_counterexample :
    TableHandler.handle [] sampleStyle ⟨[[[]]], .num 2, [.junk], none⟩
      = .ok [.table [[[PFlow.para [] sampleStyle]]] none .grid] ∧
    intOfAttr (IntAttr.num 2) 1 = .ok 2 ∧
    ¬ (∀ r ∈ ([[[PFlow.para [] sampleStyle]]] :
        List (List (List PFlow))), r.length = 2) :=
  ⟨rfl, rfl, by decide⟩

/-- C3 amended: row splitting preserves the number of cells of each row,
so every emitted row has exactly as many cells as its source row; in
particular, when every source row has exactly `columnCount` cells, every
emitted row (split or not) has exactly `columnCount` cells. -/
theorem table_rectangularity (buffer : List Char) (base : ParaStyle)
    (rows : List (List (List ParaElem))) (grid : List (List (List PFlow)))
    (k : Nat) :
    (∀ (row_items : List (List PFlow)), ∀ r ∈ splitRowItems base row_items,
      r.length = row_items.length) ∧
    (tableData buffer base rows = .ok grid →
      (∀ row ∈ rows, row.length = k) →
      ∀ r ∈ grid, r.length = k) := by
  constructor
  · intro items r hr
    exact splitRowItems_length base items r hr
  · intro h hrows
    exact tableData_aux buffer base k rows [] grid h (by simp) hrows

/-- Witness for C3: a 2-cell row flows through `table_data` with both
cells kept, and the invariant instance k = 2 holds on the result. -/
theorem table_rectangularity_witness :
    tableData [] sampleStyle [[[], []]]
      = .ok [[[PFlow.para [] sampleStyle], [PFlow.para [] sampleStyle]]] ∧
    ∀ r ∈ ([[[PFlow.para [] sampleStyle], [PFlow.para [] sampleStyle]]] :
        List (List (List PFlow))), r.length = 2 :=
  ⟨rfl, (table_rectangularity [] sampleStyle [[[], []]] _ 2).2 rfl (by decide)⟩

/-- The text chunk a single run contributes to the paragraph's text
stream: the styled slice for text/field runs, a space, the `[GÖRSEL]`
placeholder for a failed inline image, nothing for a successful one. -/
def runChunk (buffer : List Char) : RunNode → List Char
  | .content s l b i u => process_text_node buffer s l b i u
  | .field n sp b i u => process_field_node buffer n sp b i u
  | .space => [' ']
  | .other _ => []
  | .image payload =>
      match process_inline_image payload with
      | some _ => []
      | none => "[GÖRSEL]".data

/-- The paragraph's whole text stream: its runs' chunks concatenated. -/
def runsText (buffer : List Char) (runs : List RunNode) : List Char :=
  (runs.map (runChunk buffer)).flatten

/-- The texts of the text blocks of a flowable list, in order. -/
def textsOf (fl : List PFlow) : List (List Char) :=
  fl.filterMap (fun f => match f with | .para t _ => some t | .image _ => none)

lemma textsOf_append (a b : List PFlow) :
    textsOf (a ++ b) = textsOf a ++ textsOf b :=
  List.filterMap_append a b _

/-- The loop invariant for the chunking argument: when no paragraph has
been flushed the accumulator is within the cap; with at most one flushed
block that block is within the cap; every flushed block is within the cap
or is verbatim some run's chunk; so is the accumulator; flushed blocks all
carry the loop's style; the image list holds no text blocks. -/
def ChunkInv (buffer : List Char) (st : ParaStyle) (full : List RunNode)
    (acc : ParaAcc) : Prop :=
  (acc.paragraphs = [] → acc.current.length ≤ MAX_TEXT_CHUNK_LENGTH)
  ∧ (acc.paragraphs.length ≤ 1 →
      ∀ tb ∈ textsOf acc.paragraphs, tb.length ≤ MAX_TEXT_CHUNK_LENGTH)
  ∧ (∀ tb ∈ textsOf acc.paragraphs,
      tb.length ≤ MAX_TEXT_CHUNK_LENGTH ∨ ∃ r ∈ full, runChunk buffer r = tb)
  ∧ (acc.current.length ≤ MAX_TEXT_CHUNK_LENGTH
      ∨ ∃ r ∈ full, runChunk buffer r = acc.current)
  ∧ (∀ t s, PFlow.para t s ∈ acc.paragraphs → s = st)
  ∧ (∀ t s, PFlow.para t s ∈ acc.images → False)
  ∧ (∀ f ∈ acc.paragraphs, isParagraphFlowable f = true)

lemma capAppend_inv (buffer : List Char) (st : ParaStyle)
    (full : List RunNode) (paras images : List PFlow) (cur chunk : List Char)
    (hchunk : ∃ r ∈ full, runChunk buffer r = chunk)
    (h : ChunkInv buffer st full ⟨paras, images, cur⟩) :
    ChunkInv buffer st full
      ⟨(capAppendText st paras cur chunk).1, images,
        (capAppendText st paras cur chunk).2⟩ := by
  obtain ⟨h1, h2, h3, h4, h5, h6, h7⟩ := h
  unfold capAppendText
  split_ifs with hover
  · refine ⟨?_, ?_, ?_, Or.inr hchunk, ?_, h6, ?_⟩
    · intro habs
      exact absurd habs (by simp)
    · intro hlen tb htb
      have hp : paras = [] := by
        rcases paras with _ | ⟨q, qs⟩
        · rfl
        · exfalso
          simp only [List.cons_append, List.length_cons,
            List.length_append] at hlen
          omega
      subst hp
      have : tb = cur := by simpa [textsOf] using htb
      subst this
      exact h1 rfl
    · intro tb htb
      rw [textsOf_append] at htb
      rcases List.mem_append.mp htb with htb | htb
      · exact h3 tb htb
      · have : tb = cur := by
          simpa [textsOf] using htb
        subst this
        rcases h4 with h4 | h4
        · exact Or.inl h4
        · exact Or.inr h4
    · intro t s hs
      rcases List.mem_append.mp hs with hs | hs
      · exact h5 t s hs
      · simp only [List.mem_singleton, PFlow.para.injEq] at hs
        exact hs.2
    · intro f hf
      rcases List.mem_append.mp hf with hf | hf
      · exact h7 f hf
      · simp only [List.mem_singleton] at hf
        subst hf
        rfl
  · refine ⟨?_, h2, h3, Or.inl ?_, h5, h6, h7⟩
    · intro _
      simp only [List.length_append]
      omega
    · simp only [List.length_append]
      omega

lemma flushed_inv (buffer : List Char) (st : ParaStyle)
    (full : List RunNode) (acc : ParaAcc)
    (h : ChunkInv buffer st full acc) :
    ChunkInv buffer st full
      ⟨(if acc.current ≠ [] then (acc.paragraphs ++ [.para acc.current st], ([] : List Char))
          else (acc.paragraphs, acc.current)).1, acc.images,
        (if acc.current ≠ [] then (acc.paragraphs ++ [.para acc.current st], ([] : List Char))
          else (acc.paragraphs, acc.current)).2⟩ := by
  obtain ⟨h1, h2, h3, h4, h5, h6, h7⟩ := h
  split_ifs with hcur
  · refine ⟨fun habs => absurd habs (by simp), ?_, ?_, Or.inl (by simp), ?_,
      h6, ?_⟩
    · intro hlen tb htb
      have hp : acc.paragraphs = [] := by
        rcases hq : acc.paragraphs with _ | ⟨q, qs⟩
        · rfl
        · rw [hq] at hlen; simp at hlen
      rw [hp] at htb
      simp only [List.nil_append] at htb
      have : tb = acc.current := by simpa [textsOf] using htb
      subst this
      exact h1 hp
    · intro tb htb
      rw [textsOf_append] at htb
      rcases List.mem_append.mp htb with htb | htb
      · exact h3 tb htb
      · have : tb = acc.current := by simpa [textsOf] using htb
        subst this
        exact h4
    · intro t s hs
      rcases List.mem_append.mp hs with hs | hs
      · exact h5 t s hs
      · simp only [List.mem_singleton, PFlow.para.injEq] at hs
        exact hs.2
    · intro f hf
      rcases List.mem_append.mp hf with hf | hf
      · exact h7 f hf
      · simp only [List.mem_singleton] at hf
        subst hf
        rfl
  · exact ⟨h1, h2, h3, h4, h5, h6, h7⟩

lemma images_ext_inv (buffer : List Char) (st : ParaStyle)
    (full : List RunNode) (paras images : List PFlow) (cur : List Char)
    (img : InlineImage)
    (h : ChunkInv buffer st full ⟨paras, images, cur⟩) :
    ChunkInv buffer st full ⟨paras, images ++ [.image img], cur⟩ := by
  obtain ⟨h1, h2, h3, h4, h5, h6, h7⟩ := h
  refine ⟨h1, h2, h3, h4, h5, ?_, h7⟩
  intro t s hs
  rcases List.mem_append.mp hs with hs | hs
  · exact h6 t s hs
  · simp at hs

lemma paraStep_inv (buffer : List Char) (st : ParaStyle)
    (full : List RunNode) (acc : ParaAcc) (c : RunNode) (hc : c ∈ full)
    (h : ChunkInv buffer st full acc) :
    ChunkInv buffer st full (paraStep buffer st acc c) := by
  obtain ⟨paras, images, cur⟩ := acc
  cases c with
  | content s l b i u =>
      exact capAppend_inv buffer st full paras images cur _
        ⟨.content s l b i u, hc, rfl⟩ h
  | field n sp b i u =>
      exact capAppend_inv buffer st full paras images cur _
        ⟨.field n sp b i u, hc, rfl⟩ h
  | space =>
      exact capAppend_inv buffer st full paras images cur _
        ⟨.space, hc, rfl⟩ h
  | other tag =>
      exact capAppend_inv buffer st full paras images cur _
        ⟨.other tag, hc, rfl⟩ h
  | image payload =>
      cases hp : process_inline_image payload with
      | none =>
          have := capAppend_inv buffer st full paras images cur
            "[GÖRSEL]".data ⟨.image payload, hc, by simp [runChunk, hp]⟩ h
          simpa [paraStep, hp] using this
      | some img =>
          have hfl := flushed_inv buffer st full ⟨paras, images, cur⟩ h
          have hcap := capAppend_inv buffer st full
            (if cur ≠ [] then (paras ++ [.para cur st], ([] : List Char))
              else (paras, cur)).1 images
            (if cur ≠ [] then (paras ++ [.para cur st], ([] : List Char))
              else (paras, cur)).2 []
            ⟨.image payload, hc, by simp [runChunk, hp]⟩ hfl
          have := images_ext_inv buffer st full _ images _ img hcap
          simpa [paraStep, hp] using this

lemma capAppend_join (st : ParaStyle) (paras : List PFlow)
    (cur chunk : List Char) :
    (textsOf (capAppendText st paras cur chunk).1).flatten
        ++ (capAppendText st paras cur chunk).2
      = (textsOf paras).flatten ++ cur ++ chunk := by
  unfold capAppendText
  split_ifs with h
  · rw [textsOf_append]
    simp [textsOf, List.flatten_append, List.append_assoc]
  · simp [List.append_assoc]

lemma paraStep_join (buffer : List Char) (st : ParaStyle) (acc : ParaAcc)
    (c : RunNode) :
    (textsOf (paraStep buffer st acc c).paragraphs).flatten
        ++ (paraStep buffer st acc c).current
      = (textsOf acc.paragraphs).flatten ++ acc.current
        ++ runChunk buffer c := by
  obtain ⟨paras, images, cur⟩ := acc
  cases c with
  | content s l b i u =>
      simpa [paraStep, runChunk] using capAppend_join st paras cur _
  | field n sp b i u =>
      simpa [paraStep, runChunk] using capAppend_join st paras cur _
  | space =>
      simpa [paraStep, runChunk] using capAppend_join st paras cur _
  | other tag =>
      simpa [paraStep, runChunk] using capAppend_join st paras cur []
  | image payload =>
      cases hp : process_inline_image payload with
      | none =>
          simp only [paraStep, hp, runChunk]
          exact capAppend_join st paras cur _
      | some img =>
          simp only [paraStep, hp, runChunk]
          split_ifs with hcur
          · simp [capAppendText, MAX_TEXT_CHUNK_LENGTH, textsOf_append,
              textsOf, List.flatten_append]
          · rw [not_not] at hcur
            subst hcur
            simp [capAppendText, MAX_TEXT_CHUNK_LENGTH]

lemma paraFold_join (buffer : List Char) (st : ParaStyle) :
    ∀ (rest : List RunNode) (acc : ParaAcc),
      (textsOf (rest.foldl (paraStep buffer st) acc).paragraphs).flatten
          ++ (rest.foldl (paraStep buffer st) acc).current
        = (textsOf acc.paragraphs).flatten ++ acc.current
          ++ runsText buffer rest := by
  intro rest
  induction rest with
  | nil => intro acc; simp [runsText]
  | cons c cs ih =>
      intro acc
      rw [List.foldl_cons, ih, paraStep_join]
      simp [runsText, List.append_assoc]

lemma paraFold_inv (buffer : List Char) (st : ParaStyle)
    (full : List RunNode) :
    ∀ (rest : List RunNode) (acc : ParaAcc),
      (∀ r ∈ rest, r ∈ full) → ChunkInv buffer st full acc →
      ChunkInv buffer st full (rest.foldl (paraStep buffer st) acc) := by
  intro rest
  induction rest with
  | nil => intro acc _ h; exact h
  | cons c cs ih =>
      intro acc hsub h
      rw [List.foldl_cons]
      exact ih _ (fun r hr => hsub r (List.mem_cons_of_mem _ hr))
        (paraStep_inv buffer st full acc c (hsub c (List.mem_cons_self _ _)) h)

lemma chunkInv_init (buffer : List Char) (st : ParaStyle)
    (full : List RunNode) : ChunkInv buffer st full ⟨[], [], []⟩ := by
  refine ⟨?_, ?_, ?_, ?_, ?_, ?_, ?_⟩ <;>
    simp [textsOf, MAX_TEXT_CHUNK_LENGTH]

lemma textsOf_length_of_paras : ∀ (l : List PFlow),
    (∀ f ∈ l, isParagraphFlowable f = true) →
    (textsOf l).length = l.length := by
  intro l
  induction l with
  | nil => intro _; rfl
  | cons f fs ih =>
      intro hall
      cases f with
      | para t s =>
          simp only [textsOf, List.filterMap_cons] at ih ⊢
          simp [ih (fun g hg => hall g (List.mem_cons_of_mem _ hg))]
      | image i =>
          exact absurd (hall _ (List.mem_cons_self _ _)) (by simp [isParagraphFlowable])

lemma textsOf_nil : textsOf [] = [] := rfl

/-- C4 amended: for every paragraph the emitted text blocks satisfy: when
appending the next run's chunk would push the accumulated text over the
1000-character cap, the current block is flushed and a new block starts
from that chunk under the same paragraph style — so every emitted block is
within the cap **or is verbatim a single run's chunk that itself exceeds
the cap**; a paragraph whose text stream exceeds the cap produces at least
two text blocks; and concatenating the blocks' text in order reproduces
the paragraph's text stream exactly. -/
theorem paragraph_chunking (buffer : List Char) (base : ParaStyle)
    (p : ParaElem) (style : ParaStyle) (fl : List PFlow)
    (hst : buildParaStyle base p = .ok style)
    (hfl : ParagraphHandler.handle buffer base p = .ok fl) :
    (textsOf fl).flatten = runsText buffer p.runs ∧
    (MAX_TEXT_CHUNK_LENGTH < (runsText buffer p.runs).length →
      2 ≤ (textsOf fl).length) ∧
    (∀ tb ∈ textsOf fl, tb.length ≤ MAX_TEXT_CHUNK_LENGTH
      ∨ ∃ r ∈ p.runs, runChunk buffer r = tb) ∧
    (∀ t s, PFlow.para t s ∈ fl → s = style) := by
  simp only [ParagraphHandler.handle, hst, Bind.bind, Except.bind] at hfl
  injection hfl with hfl
  subst hfl
  set acc := paraLoop buffer style p.runs with haccdef
  have hinv : ChunkInv buffer style p.runs acc :=
    paraFold_inv buffer style p.runs p.runs ⟨[], [], []⟩
      (fun r hr => hr) (chunkInv_init buffer style p.runs)
  obtain ⟨h1, h2, h3, h4, h5, h6, h7⟩ := hinv
  have hjoin : (textsOf acc.paragraphs).flatten ++ acc.current
      = runsText buffer p.runs := by
    have hj := paraFold_join buffer style p.runs ⟨[], [], []⟩
    simpa [textsOf_nil] using hj
  have himg : textsOf acc.images = [] := by
    refine List.filterMap_eq_nil.mpr ?_
    intro f hf
    cases f with
    | para t s => exact (h6 t s hf).elim
    | image i => rfl
  have hT : textsOf ((if acc.current ≠ [] then
        acc.paragraphs ++ [.para acc.current style] else acc.paragraphs)
        ++ acc.images)
      = textsOf acc.paragraphs
        ++ (if acc.current ≠ [] then [acc.current] else []) := by
    rw [textsOf_append, himg, List.append_nil]
    split_ifs with hcur
    · rw [textsOf_append]
      rfl
    · simp
  refine ⟨?_, ?_, ?_, ?_⟩
  · rw [hT]
    by_cases hcur : acc.current ≠ []
    · rw [if_pos hcur, List.flatten_append]
      simpa using hjoin
    · rw [if_neg hcur, List.append_nil]
      rw [not_not] at hcur
      rw [hcur, List.append_nil] at hjoin
      exact hjoin
  · intro htot
    rw [hT]
    rcases hps : acc.paragraphs with _ | ⟨q, qs⟩
    · exfalso
      have hle := h1 hps
      rw [hps, textsOf_nil, List.flatten_nil, List.nil_append] at hjoin
      rw [← hjoin] at htot
      omega
    · rcases qs with _ | ⟨q2, qs2⟩
      · have hq : isParagraphFlowable q = true :=
          h7 q (by rw [hps]; exact List.mem_cons_self _ _)
        cases q with
        | image i => simp [isParagraphFlowable] at hq
        | para tb s =>
            by_cases hcur : acc.current ≠ []
            · rw [if_pos hcur]
              simp [textsOf]
            · exfalso
              rw [not_not] at hcur
              have htb : tb.length ≤ MAX_TEXT_CHUNK_LENGTH :=
                h2 (by rw [hps]; rfl) tb (by rw [hps]; simp [textsOf])
              rw [hps, hcur, List.append_nil] at hjoin
              have heq : tb = runsText buffer p.runs := by
                simpa [textsOf] using hjoin
              rw [← heq] at htot
              omega
      · rw [hps] at h7
        have h2le : 2 ≤ (textsOf (q :: q2 :: qs2)).length := by
          rw [textsOf_length_of_paras (q :: q2 :: qs2) h7]
          simp only [List.length_cons]
          omega
        rw [List.length_append]
        omega
  · intro tb htb
    rw [hT] at htb
    rcases List.mem_append.mp htb with htb | htb
    · exact h3 tb htb
    · by_cases hcur : acc.current ≠ []
      · rw [if_pos hcur] at htb
        simp only [List.mem_singleton] at htb
        subst htb
        exact h4
      · rw [if_neg hcur] at htb
        simp at htb
  · intro t s hs
    rcases List.mem_append.mp hs with hs | hs
    · by_cases hcur : acc.current ≠ []
      · rw [if_pos hcur] at hs
        rcases List.mem_append.mp hs with hs | hs
        · exact h5 t s hs
        · simp only [List.mem_singleton, PFlow.para.injEq] at hs
          exact hs.2
      · rw [if_neg hcur] at hs
        exact h5 t s hs
    · exact (h6 t s hs).elim

/-- A 1001-character shared content buffer. -/
def bigBuffer : List Char := List.replicate 1001 'a'

/-- A paragraph with a single unstyled text run covering all 1001
characters of `bigBuffer`. -/
def bigPara : ParaElem :=
  ⟨none, .absent, .absent, .absent, .absent, .absent,
    [.content 0 1001 false false false]⟩

set_option maxRecDepth 40000 in
lemma handle_bigPara :
    ParagraphHandler.handle bigBuffer sampleStyle bigPara
      = .ok [.para [] (derivedDefaultStyle sampleStyle),
          .para bigBuffer (derivedDefaultStyle sampleStyle)] := by
  simp only [ParagraphHandler.handle, bigPara, buildParaStyle_absent,
    Bind.bind, Except.bind]
  rfl

set_option maxRecDepth 40000 in
/-- C4 counterexample: the claim caps every emitted block at 1000
characters.  A paragraph whose single run's chunk has 1001 characters
emits a block of 1001 characters (preceded by a flushed *empty* block);
the cap fails for single oversized chunks. -/
theorem chunk_cap_counterexample :
    ParagraphHandler.handle bigBuffer sampleStyle bigPara
      = .ok [.para [] (derivedDefaultStyle sampleStyle),
          .para bigBuffer (derivedDefaultStyle sampleStyle)] ∧
    MAX_TEXT_CHUNK_LENGTH < bigBuffer.length :=
  ⟨handle_bigPara, by simp [bigBuffer, MAX_TEXT_CHUNK_LENGTH]⟩

set_option maxRecDepth 40000 in
/-- Witness for C4 at the concrete 1001-character paragraph: more than one
block, and concatenation reproduces the text stream. -/
theorem paragraph_chunking_witness :
    ParagraphHandler.handle bigBuffer sampleStyle bigPara
      = .ok [.para [] (derivedDefaultStyle sampleStyle),
          .para bigBuffer (derivedDefaultStyle sampleStyle)] ∧
    (textsOf [.para [] (derivedDefaultStyle sampleStyle),
        .para bigBuffer (derivedDefaultStyle sampleStyle)]).flatten
      = runsText bigBuffer bigPara.runs ∧
    2 ≤ (textsOf [.para [] (derivedDefaultStyle sampleStyle),
        .para bigBuffer (derivedDefaultStyle sampleStyle)]).length :=
  ⟨handle_bigPara,
    (paragraph_chunking bigBuffer sampleStyle bigPara
        (derivedDefaultStyle sampleStyle) _
        (buildParaStyle_absent sampleStyle bigPara.runs) handle_bigPara).1,
    (paragraph_chunking bigBuffer sampleStyle bigPara
        (derivedDefaultStyle sampleStyle) _
        (buildParaStyle_absent sampleStyle bigPara.runs)
        handle_bigPara).2.1
      (by simp [runsText, bigPara, runChunk, process_text_node,
        format_text_styles, pySlice, bigBuffer, MAX_TEXT_CHUNK_LENGTH])⟩

end UDF
